import Mathlib

/-!
# MemorySanitizer interceptors: shadow propagation primitives

A shallow embedding of `lib/msan/msan_interceptors.cc`.

Memory is one flat address space of bytes.  Addresses and `uptr` values are natural
numbers; `uptr` arithmetic that can wrap is reduced modulo `2^64` explicitly.  Pointer
arithmetic inside an object (`p[i]`, `dest + dest_size`) is not reduced: an object never
straddles the end of the address space.
-/

namespace Msan

/-- One byte of memory. -/
abbrev Byte := Fin 256

/-- The flat address space: application bytes, shadow bytes and origin words alike. -/
abbrev Mem := Nat → Byte

/-- Store of one byte: `*(char*)a = b`. -/
def store (m : Mem) (a : Nat) (b : Byte) : Mem :=
  fun x => if x = a then b else m x

/-- Byte number `k` of a 64-bit word (little endian). -/
def word_byte (w k : Nat) : Byte :=
  ⟨(w / 256 ^ k) % 256, Nat.mod_lt _ (by decide)⟩

/-- Load of a `uptr` at address `a`: `*(uptr*)a`. -/
def load_word (m : Mem) (a : Nat) : Nat :=
  (m a).val + 256 * ((m (a + 1)).val + 256 * ((m (a + 2)).val + 256 * ((m (a + 3)).val
    + 256 * ((m (a + 4)).val + 256 * ((m (a + 5)).val + 256 * ((m (a + 6)).val
    + 256 * (m (a + 7)).val))))))

/-- Store of a `uptr` at address `a`: `*(uptr*)a = w`. -/
def store_word (m : Mem) (a : Nat) (w : Nat) : Mem :=
  fun x => if a ≤ x ∧ x < a + 8 then word_byte w (x - a) else m x

/-- The C library `memset` (external to the repository), by its ISO C contract: the
first `n` bytes at `ptr` receive `(unsigned char)c`, one byte at a time. -/
def libc_memset (m : Mem) (ptr : Nat) (c : Int) : Nat → Mem
  | 0 => m
  | k + 1 => store (libc_memset m ptr c k) (ptr + k) ⟨(c % 256).toNat, by omega⟩

/-- The C library `memcpy` (external to the repository), by its ISO C contract: a
forward byte-by-byte copy of `n` bytes from `src` to `dst`. -/
def libc_memcpy (m : Mem) (dst src : Nat) : Nat → Mem
  | 0 => m
  | k + 1 =>
    let m' := libc_memcpy m dst src k
    store m' (dst + k) (m' (src + k))

/-- Process-wide mutable state. -/
structure State where
  /-- All of memory. -/
  mem : Mem
  /-- The flag `msan_inited`. -/
  msan_inited : Bool
  /-- The flag `msan_init_is_running`. -/
  msan_init_is_running : Bool
  /-- The flag `__msan_track_origins`. -/
  msan_track_origins : Bool
  /-- The flag `__msan::flags.poison_heap_with_zeroes`. -/
  poison_heap_with_zeroes : Bool
  /-- The flag `__msan::flags.poison_stack_with_zeroes`. -/
  poison_stack_with_zeroes : Bool
  /-- Whether `REAL(memset)` is non-null. -/
  real_memset : Bool
  /-- Whether `REAL(memcpy)` is non-null. -/
  real_memcpy : Bool
  /-- Whether `REAL(memmove)` is non-null. -/
  real_memmove : Bool
  /-- The function-local static `allocated` of the `calloc` interceptor. -/
  allocated : Nat
  /-- Offsets printed by `CHECK_UNPOISONED`, one per `__msan_warning()` call. -/
  reports : List Int

/-- What the file takes from its headers and from the rest of the runtime: the address
layout macros, target constants, and the external services the interceptors call. -/
structure Env where
  /-- The macro `MEM_TO_SHADOW`. -/
  MEM_TO_SHADOW : Nat → Nat
  /-- The macro `MEM_TO_ORIGIN`. -/
  MEM_TO_ORIGIN : Nat → Nat
  /-- The macro `MEM_IS_APP`. -/
  MEM_IS_APP : Nat → Bool
  /-- The target constant `sizeof(uptr)`. -/
  sizeof_uptr : Nat
  /-- The constant `kWordSize`. -/
  kWordSize : Nat
  /-- The address of the static array `calloc_memory_for_dlsym`. -/
  calloc_memory_for_dlsym : Nat
  /-- The runtime entry `__msan_init()`. -/
  msan_init : State → State
  /-- The query `__msan_has_dynamic_component()`. -/
  msan_has_dynamic_component : State → Bool
  /-- The macro `GET_MALLOC_STACK_TRACE`: the captured stack, as a token. -/
  GET_MALLOC_STACK_TRACE : State → Nat
  /-- The allocator service `MsanReallocate(stack, old, size, alignment, zero)`. -/
  MsanReallocate : State → Nat → Nat → Nat → Nat → Bool → Nat × State
  /-- The genuine `read(fd, ptr, count)`. -/
  real_read : State → Int → Nat → Nat → Int × State
  /-- The genuine `pread(fd, ptr, count, offset)`. -/
  real_pread : State → Int → Nat → Nat → Nat → Int × State
  /-- The genuine `vsnprintf(str, size, format, ap)`; format and arguments are tokens. -/
  real_vsnprintf : State → Nat → Nat → Nat → Nat → Int × State

/-- The word loop of `fast_memset`: `for (i = 0; i < cnt; i++) p[i] = to_store`. -/
def fast_memset_loop (m : Mem) (p to_store : Nat) : Nat → Mem
  | 0 => m
  | k + 1 => store_word (fast_memset_loop m p to_store k) (p + 8 * k) to_store

/-- The function `fast_memset(ptr, c, n)`; `none` is a failed `CHECK`. -/
def fast_memset (E : Env) (S : State) (ptr : Nat) (c : Int) (n : Nat) :
    Option (Nat × State) :=
  if E.sizeof_uptr = 8 ∧ n % 8 = 0 ∧ ptr % 8 = 0 ∧ (c = 0 ∨ c = -1) then
    let to_store : Nat := if c ≠ 0 then 2 ^ 64 - 1 else 0
    some (ptr, { S with mem := fast_memset_loop S.mem ptr to_store (n / 8) })
  else if S.real_memset = false then none
  else some (ptr, { S with mem := libc_memset S.mem ptr c n })

/-- The word loop of `fast_memcpy`: `for (i = 0; i < cnt; i++) d[i] = s[i]`. -/
def fast_memcpy_loop (m : Mem) (d s : Nat) : Nat → Mem
  | 0 => m
  | k + 1 =>
    let m' := fast_memcpy_loop m d s k
    store_word m' (d + 8 * k) (load_word m' (s + 8 * k))

/-- The function `fast_memcpy(dst, src, n)`; `none` is a failed `CHECK`. -/
def fast_memcpy (E : Env) (S : State) (dst src n : Nat) : Option (Nat × State) :=
  if E.sizeof_uptr = 8 ∧ n % 8 = 0 ∧ dst % 8 = 0 ∧ src % 8 = 0 then
    some (dst, { S with mem := fast_memcpy_loop S.mem dst src (n / 8) })
  else if S.real_memcpy = false then none
  else some (dst, { S with mem := libc_memcpy S.mem dst src n })

/-- The macro `IS_IN_SHADOW(x)`. -/
def IS_IN_SHADOW (E : Env) (x : Nat) : Bool :=
  E.MEM_TO_SHADOW x = x

/-- The function `__msan_unpoison(a, size)`. -/
def __msan_unpoison (E : Env) (S : State) (a size : Nat) : Option State :=
  if IS_IN_SHADOW E a then some S
  else (fast_memset E S (E.MEM_TO_SHADOW a) 0 size).map Prod.snd

/-- The function `__msan_poison(a, size)`. -/
def __msan_poison (E : Env) (S : State) (a size : Nat) : Option State :=
  if IS_IN_SHADOW E a then some S
  else (fast_memset E S (E.MEM_TO_SHADOW a)
    (if S.poison_heap_with_zeroes then 0 else -1) size).map Prod.snd

/-- The byte loop of `__msan_copy_origin`. -/
def copy_origin_loop (m : Mem) (d s : Nat) : Nat → Mem
  | 0 => m
  | k + 1 =>
    let m' := copy_origin_loop m d s k
    store m' (d + k) (m' (s + k))

/-- The function `__msan_copy_origin(dst, src, size)`. -/
def __msan_copy_origin (E : Env) (S : State) (dst src size : Nat) : State :=
  if S.msan_track_origins = false then S
  else if E.MEM_IS_APP dst = false ∨ E.MEM_IS_APP src = false then S
  else { S with mem := copy_origin_loop S.mem (E.MEM_TO_ORIGIN dst) (E.MEM_TO_ORIGIN src) size }

/-- The function `__msan_copy_poison(dst, src, size)`. -/
def __msan_copy_poison (E : Env) (S : State) (dst src size : Nat) : Option State :=
  if IS_IN_SHADOW E dst then some S
  else if IS_IN_SHADOW E src then some S
  else
    match fast_memcpy E S (E.MEM_TO_SHADOW dst) (E.MEM_TO_SHADOW src) size with
    | none => none
    | some (_, S1) => some (__msan_copy_origin E S1 dst src size)

/-- The macro `ENSURE_MSAN_INITED()`; `none` is the failed `CHECK(!msan_init_is_running)`. -/
def ENSURE_MSAN_INITED (E : Env) (S : State) : Option State :=
  if S.msan_init_is_running then none
  else if S.msan_inited = false then some (E.msan_init S)
  else some S

/-- Modelled from the spec: the scan of `__msan_test_shadow`, which is defined outside
this file: from offset `i`, over the next `k` shadow bytes at `s`, the offset of the first
nonzero byte, or `-1`. -/
def test_shadow_loop (m : Mem) (s : Nat) (i : Nat) : Nat → Int
  | 0 => -1
  | k + 1 => if m (s + i) ≠ 0 then (i : Int) else test_shadow_loop m s (i + 1) k

/-- Modelled from the spec: `__msan_test_shadow(x, size)` is declared in `msan_interface.h`
and defined outside this file.  It is the test primitive `first_poisoned_offset(addr, n)`:
the offset of the first nonzero shadow byte of the range, or "none", which the caller
`CHECK_UNPOISONED` receives as a negative `sptr` (here `-1`). -/
def __msan_test_shadow (E : Env) (S : State) (x size : Nat) : Int :=
  test_shadow_loop S.mem (E.MEM_TO_SHADOW x) 0 size

/-- The macro `CHECK_UNPOISONED(x, n)`.  The `Printf` and `__msan_warning()` pair is
recorded as one entry of `reports`. -/
def CHECK_UNPOISONED (E : Env) (S : State) (x n : Nat) : State :=
  let offset := __msan_test_shadow E S x n
  if offset ≥ 0 then { S with reports := S.reports ++ [offset] } else S

/-- The C library `strnlen` (external), by its contract: the index of the first NUL
among the first `n` bytes at `s`, or `n` when there is none. -/
def libc_strnlen (m : Mem) (s : Nat) : Nat → Nat
  | 0 => 0
  | k + 1 => if m s = 0 then 0 else libc_strnlen m (s + 1) k + 1

/-- The C library `strlen` (external): the index of the first NUL at or after `s`,
searched through the 64-bit address space. -/
def libc_strlen (m : Mem) (s : Nat) : Nat :=
  libc_strnlen m s (2 ^ 64)

/-- The C library `strncat` (external), by its contract: the first
`min(strlen(src), n)` characters of `src` are written at the end of `dest`, followed by
a terminating NUL; returns `dest`. -/
def libc_strncat (m : Mem) (dest src n : Nat) : Nat × Mem :=
  let d := libc_strlen m dest
  let k := min (libc_strlen m src) n
  (dest, store (libc_memcpy m (dest + d) src k) (dest + d + k) 0)

/-- The interceptor of `read`. -/
def read (E : Env) (S : State) (fd : Int) (ptr count : Nat) : Option (Int × State) :=
  match ENSURE_MSAN_INITED E S with
  | none => none
  | some S0 =>
    let r := E.real_read S0 fd ptr count
    if r.1 > 0 then (__msan_unpoison E r.2 ptr r.1.toNat).map (fun S2 => (r.1, S2))
    else some (r.1, r.2)

/-- The interceptor of `pread`. -/
def pread (E : Env) (S : State) (fd : Int) (ptr count offset : Nat) :
    Option (Int × State) :=
  match ENSURE_MSAN_INITED E S with
  | none => none
  | some S0 =>
    let r := E.real_pread S0 fd ptr count offset
    if r.1 > 0 then (__msan_unpoison E r.2 ptr r.1.toNat).map (fun S2 => (r.1, S2))
    else some (r.1, r.2)

/-- The interceptor of `posix_memalign`; `none` is a failed `CHECK`.  The result pointer
is stored as one 64-bit word at `memptr`. -/
def posix_memalign (E : Env) (S : State) (memptr alignment size : Nat) :
    Option (Int × State) :=
  let stack := E.GET_MALLOC_STACK_TRACE S
  if alignment &&& ((alignment + 2 ^ 64 - 1) % 2 ^ 64) ≠ 0 then none
  else
    let r := E.MsanReallocate S stack 0 size alignment false
    let S2 : State := { r.2 with mem := store_word r.2.mem memptr r.1 }
    if memptr = 0 then none else some (0, S2)

/-- The interceptor of `strnlen`. -/
def strnlen (E : Env) (S : State) (s n : Nat) : Option (Nat × State) :=
  match ENSURE_MSAN_INITED E S with
  | none => none
  | some S0 =>
    let res := libc_strnlen S0.mem s n
    let scan_size := if res = n then res else res + 1
    some (res, CHECK_UNPOISONED E S0 s scan_size)

/-- The length that the `strncat` interceptor passes to `__msan_copy_poison`. -/
def strncat_copy_size (m : Mem) (src n : Nat) : Nat :=
  let copy_size := libc_strlen m src
  if copy_size < n then copy_size + 1 else copy_size

/-- The interceptor of `strncat`. -/
def strncat (E : Env) (S : State) (dest src n : Nat) : Option (Nat × State) :=
  match ENSURE_MSAN_INITED E S with
  | none => none
  | some S0 =>
    let dest_size := libc_strlen S0.mem dest
    let copy_size := strncat_copy_size S0.mem src n
    let r := libc_strncat S0.mem dest src n
    let S1 : State := { S0 with mem := r.2 }
    (__msan_copy_poison E S1 (dest + dest_size) src copy_size).map (fun S2 => (r.1, S2))

/-- The interceptor of `vsnprintf`.  The `int` value `res + 1` becomes the `uptr` size
argument of `__msan_unpoison` by the usual conversion modulo `2^64`. -/
def vsnprintf (E : Env) (S : State) (str size format ap : Nat) : Option (Int × State) :=
  let r := E.real_vsnprintf S str size format ap
  if E.msan_has_dynamic_component r.2 = false then
    (__msan_unpoison E r.2 str ((r.1 + 1) % 2 ^ 64).toNat).map (fun S2 => (r.1, S2))
  else some (r.1, r.2)

/-- The interceptor of `calloc`; `none` is the failed `CHECK(allocated < kCallocPoolSize)`.
All `size_t` arithmetic is modulo `2^64`. -/
def calloc (E : Env) (S : State) (nmemb size : Nat) : Option (Nat × State) :=
  let stack := E.GET_MALLOC_STACK_TRACE S
  if S.msan_inited = false then
    let kCallocPoolSize := 1024
    let size_in_words := (((nmemb * size) % 2 ^ 64 + E.kWordSize - 1) % 2 ^ 64) / E.kWordSize
    let mem := E.calloc_memory_for_dlsym + E.sizeof_uptr * S.allocated
    let allocated := (S.allocated + size_in_words) % 2 ^ 64
    if allocated < kCallocPoolSize then some (mem, { S with allocated := allocated })
    else none
  else some (E.MsanReallocate S stack 0 ((nmemb * size) % 2 ^ 64) 8 true)

/-! ## A small concrete configuration

Application memory is `[0, 1000)`, its shadow `[1000, 2000)`, its origin storage
`[2000, 3000)`; every address from `1000` on translates to itself. -/

/-- A concrete layout and environment, used to evaluate the definitions.  The genuine
`read`, `pread` and `vsnprintf` all return `res` and write nothing; the allocator returns
the address `512 + alignment`. -/
def demoEnv (res : Int) : Env where
  MEM_TO_SHADOW := fun a => if a < 1000 then a + 1000 else a
  MEM_TO_ORIGIN := fun a => (if a < 1000 then a + 1000 else a) + 1000
  MEM_IS_APP := fun a => decide (a < 1000)
  sizeof_uptr := 8
  kWordSize := 8
  calloc_memory_for_dlsym := 4096
  msan_init := fun S => { S with msan_inited := true }
  msan_has_dynamic_component := fun _ => false
  GET_MALLOC_STACK_TRACE := fun _ => 0
  MsanReallocate := fun S _ _ _ alignment _ => (512 + alignment, S)
  real_read := fun S _ _ _ => (res, S)
  real_pread := fun S _ _ _ _ => (res, S)
  real_vsnprintf := fun S _ _ _ _ => (res, S)

/-- A memory holding the string "a" at address 100 and the string "bcd" at address 200,
zero elsewhere, except that the shadow byte of address 202 (at 1202) is poisoned. -/
def demoStrings : Mem :=
  fun a =>
    if a = 100 then 97 else if a = 200 then 98 else if a = 201 then 99
    else if a = 202 then 100 else if a = 1202 then 255 else 0

/-- A concrete state over the memory `m`, initialised, with every genuine function bound
and the given heap-poison flag. -/
def demoState (m : Mem) (zeroes : Bool) : State where
  mem := m
  msan_inited := true
  msan_init_is_running := false
  msan_track_origins := true
  poison_heap_with_zeroes := zeroes
  poison_stack_with_zeroes := false
  real_memset := true
  real_memcpy := true
  real_memmove := true
  allocated := 0
  reports := []

/-- The state of a process before the checker is initialised, with `allocated` words of
the bootstrap pool consumed. -/
def bootState (allocated : Nat) : State where
  mem := fun _ => 0
  msan_inited := false
  msan_init_is_running := false
  msan_track_origins := false
  poison_heap_with_zeroes := false
  poison_stack_with_zeroes := false
  real_memset := false
  real_memcpy := false
  real_memmove := false
  allocated := allocated
  reports := []

/-! ## Memory lemmas -/

theorem word_byte_load (m : Mem) (a j : Nat) (hj : j < 8) :
    word_byte (load_word m a) j = m (a + j) := by
  apply Fin.ext
  have h0 := (m a).isLt
  have h1 := (m (a+1)).isLt
  have h2 := (m (a+2)).isLt
  have h3 := (m (a+3)).isLt
  have h4 := (m (a+4)).isLt
  have h5 := (m (a+5)).isLt
  have h6 := (m (a+6)).isLt
  have h7 := (m (a+7)).isLt
  simp only [word_byte, load_word]
  interval_cases j <;> norm_num <;> omega

theorem word_byte_zero (j : Nat) : word_byte 0 j = 0 := by
  apply Fin.ext; simp [word_byte]

theorem word_byte_ones (j : Nat) (hj : j < 8) : word_byte (2 ^ 64 - 1) j = 255 := by
  interval_cases j <;> decide

theorem libc_memset_apply (m : Mem) (p : Nat) (c : Int) (n x : Nat) :
    libc_memset m p c n x
      = if p ≤ x ∧ x < p + n then (⟨(c % 256).toNat, by omega⟩ : Byte) else m x := by
  induction n with
  | zero =>
    simp only [libc_memset]
    rw [if_neg (by omega)]
  | succ k ih =>
    simp only [libc_memset, store, ih]
    by_cases h1 : x = p + k
    · subst h1; simp
    · simp only [h1, if_false]
      by_cases h2 : p ≤ x ∧ x < p + k
      · have : p ≤ x ∧ x < p + (k + 1) := ⟨h2.1, by omega⟩
        simp [h2, this]
      · have : ¬ (p ≤ x ∧ x < p + (k + 1)) := by omega
        simp [h2, this]

theorem fast_memset_loop_apply (m : Mem) (p w k x : Nat) :
    fast_memset_loop m p w k x
      = if p ≤ x ∧ x < p + 8 * k then word_byte w ((x - p) % 8) else m x := by
  induction k with
  | zero =>
    simp only [fast_memset_loop]
    rw [if_neg (by omega)]
  | succ k ih =>
    simp only [fast_memset_loop, store_word, ih]
    by_cases h1 : p + 8 * k ≤ x ∧ x < p + 8 * k + 8
    · have h2 : p ≤ x ∧ x < p + 8 * (k + 1) := by omega
      have h3 : x - (p + 8 * k) = (x - p) % 8 := by omega
      simp [h1, h2, h3]
    · simp only [h1, if_false]
      by_cases h2 : p ≤ x ∧ x < p + 8 * k
      · have : p ≤ x ∧ x < p + 8 * (k + 1) := by omega
        simp [h2, this]
      · have : ¬ (p ≤ x ∧ x < p + 8 * (k + 1)) := by omega
        simp [h2, this]

theorem load_word_congr (m m' : Mem) (a b : Nat) (h : ∀ j, j < 8 → m' (a + j) = m (b + j)) :
    load_word m' a = load_word m b := by
  have h0 := h 0 (by omega)
  simp only [Nat.add_zero] at h0
  simp only [load_word, h0, h 1 (by omega), h 2 (by omega), h 3 (by omega), h 4 (by omega),
    h 5 (by omega), h 6 (by omega), h 7 (by omega)]

theorem libc_memcpy_apply (m : Mem) (d s n : Nat)
    (hdis : ∀ i j, i < n → j < n → d + i ≠ s + j) (x : Nat) :
    libc_memcpy m d s n x = if d ≤ x ∧ x < d + n then m (s + (x - d)) else m x := by
  induction n generalizing x with
  | zero =>
    simp only [libc_memcpy]
    rw [if_neg (by omega)]
  | succ k ih =>
    have ih' := ih (fun i j hi hj => hdis i j (by omega) (by omega))
    simp only [libc_memcpy, store]
    by_cases h1 : x = d + k
    · subst h1
      have hs : libc_memcpy m d s k (s + k) = m (s + k) := by
        rw [ih', if_neg]
        intro h
        exact hdis (s + k - d) k (by omega) (by omega) (by omega)
      have hx : d + k - d = k := by omega
      rw [if_pos rfl, hs, if_pos (by omega), hx]
    · simp only [h1, if_false, ih']
      by_cases h2 : d ≤ x ∧ x < d + k
      · rw [if_pos h2, if_pos (by omega)]
      · rw [if_neg h2, if_neg (by omega)]

theorem fast_memcpy_loop_apply (m : Mem) (d s k : Nat)
    (hdis : ∀ i j, i < 8 * k → j < 8 * k → d + i ≠ s + j) (x : Nat) :
    fast_memcpy_loop m d s k x = if d ≤ x ∧ x < d + 8 * k then m (s + (x - d)) else m x := by
  induction k generalizing x with
  | zero =>
    simp only [fast_memcpy_loop]
    rw [if_neg (by omega)]
  | succ k ih =>
    have ih' := ih (fun i j hi hj => hdis i j (by omega) (by omega))
    have hs : load_word (fast_memcpy_loop m d s k) (s + 8 * k) = load_word m (s + 8 * k) := by
      apply load_word_congr
      intro j hj
      rw [ih', if_neg]
      intro h
      exact hdis (s + 8 * k + j - d) (8 * k + j) (by omega) (by omega) (by omega)
    simp only [fast_memcpy_loop, store_word, hs]
    by_cases h1 : d + 8 * k ≤ x ∧ x < d + 8 * k + 8
    · rw [if_pos h1, if_pos (by omega), word_byte_load _ _ _ (by omega)]
      congr 1
      omega
    · rw [if_neg h1, ih']
      by_cases h2 : d ≤ x ∧ x < d + 8 * k
      · rw [if_pos h2, if_pos (by omega)]
      · rw [if_neg h2, if_neg (by omega)]

theorem copy_origin_loop_frame (m : Mem) (d s n x : Nat) (hx : ¬ (d ≤ x ∧ x < d + n)) :
    copy_origin_loop m d s n x = m x := by
  induction n with
  | zero => rfl
  | succ k ih =>
    simp only [copy_origin_loop, store]
    rw [if_neg (by omega), ih (by omega)]

theorem test_shadow_loop_congr (m m' : Mem) (s i k : Nat)
    (h : ∀ j, j < k → m' (s + (i + j)) = m (s + (i + j))) :
    test_shadow_loop m' s i k = test_shadow_loop m s i k := by
  induction k generalizing i with
  | zero => rfl
  | succ k ih =>
    have h0 := h 0 (by omega)
    simp only [Nat.add_zero] at h0
    simp only [test_shadow_loop, h0]
    rw [ih (i + 1) (fun j hj => by
      have := h (j + 1) (by omega)
      rwa [show i + (j + 1) = i + 1 + j by omega] at this)]

theorem test_shadow_loop_range (m : Mem) (s i k : Nat) :
    test_shadow_loop m s i k = -1 ∨
      ∃ j, j < k ∧ test_shadow_loop m s i k = ((i + j : Nat) : Int) ∧ m (s + (i + j)) ≠ 0 ∧
        ∀ l, l < j → m (s + (i + l)) = 0 := by
  induction k generalizing i with
  | zero => exact Or.inl rfl
  | succ k ih =>
    simp only [test_shadow_loop]
    by_cases h0 : m (s + i) = 0
    · rw [if_neg (by simpa using h0)]
      rcases ih (i + 1) with h | ⟨j, hj, he, hne, hz⟩
      · exact Or.inl h
      · refine Or.inr ⟨j + 1, by omega, ?_, ?_, ?_⟩
        · rw [he]; congr 1; omega
        · rwa [show i + (j + 1) = i + 1 + j by omega]
        · intro l hl
          cases l with
          | zero => simpa using h0
          | succ l =>
            have := hz l (by omega)
            rwa [show i + (l + 1) = i + 1 + l by omega]
    · rw [if_pos h0]
      exact Or.inr ⟨0, by omega, rfl, h0, fun l hl => absurd hl (by omega)⟩

theorem test_shadow_loop_none_iff (m : Mem) (s i k : Nat) :
    test_shadow_loop m s i k = -1 ↔ ∀ j, j < k → m (s + (i + j)) = 0 := by
  induction k generalizing i with
  | zero => exact ⟨fun _ j hj => absurd hj (by omega), fun _ => rfl⟩
  | succ k ih =>
    simp only [test_shadow_loop]
    by_cases h0 : m (s + i) = 0
    · rw [if_neg (by simpa using h0), ih (i + 1)]
      constructor
      · intro h j hj
        cases j with
        | zero => simpa using h0
        | succ j =>
          have := h j (by omega)
          rwa [show i + (j + 1) = i + 1 + j by omega]
      · intro h j hj
        have := h (j + 1) (by omega)
        rwa [show i + (j + 1) = i + 1 + j by omega] at this
    · rw [if_pos h0]
      constructor
      · intro h; omega
      · intro h
        exact absurd (by simpa using h 0 (by omega)) h0

theorem test_shadow_loop_nonneg_iff (m : Mem) (s i k : Nat) :
    0 ≤ test_shadow_loop m s i k ↔ test_shadow_loop m s i k ≠ -1 := by
  rcases test_shadow_loop_range m s i k with h | ⟨j, _, he, _, _⟩
  · rw [h]; decide
  · rw [he]; omega

theorem fast_memset_loop_eq_libc (m : Mem) (p : Nat) (c : Int) (n : Nat) (hn : n % 8 = 0)
    (hc : c = 0 ∨ c = -1) :
    fast_memset_loop m p (if c ≠ 0 then 2 ^ 64 - 1 else 0) (n / 8) = libc_memset m p c n := by
  funext x
  rw [fast_memset_loop_apply, libc_memset_apply]
  have h8 : 8 * (n / 8) = n := by omega
  rw [h8]
  by_cases hx : p ≤ x ∧ x < p + n
  · rw [if_pos hx, if_pos hx]
    rcases hc with h | h
    · subst h
      rw [if_neg (by decide), word_byte_zero]
      rfl
    · subst h
      rw [if_pos (by decide), word_byte_ones _ (Nat.mod_lt _ (by decide))]
      rfl
  · rw [if_neg hx, if_neg hx]

theorem fast_memset_eq (E : Env) (S : State) (ptr : Nat) (c : Int) (n : Nat)
    (hreal : ¬ (E.sizeof_uptr = 8 ∧ n % 8 = 0 ∧ ptr % 8 = 0 ∧ (c = 0 ∨ c = -1)) →
      S.real_memset = true) :
    fast_memset E S ptr c n = some (ptr, { S with mem := libc_memset S.mem ptr c n }) := by
  unfold fast_memset
  by_cases h : E.sizeof_uptr = 8 ∧ n % 8 = 0 ∧ ptr % 8 = 0 ∧ (c = 0 ∨ c = -1)
  · rw [if_pos h]
    simp only [fast_memset_loop_eq_libc S.mem ptr c n h.2.1 h.2.2.2]
  · rw [if_neg h, if_neg (by simp [hreal h])]

theorem fast_memcpy_loop_eq_libc (m : Mem) (d s n : Nat) (hn : n % 8 = 0)
    (hdis : ∀ i j, i < n → j < n → d + i ≠ s + j) :
    fast_memcpy_loop m d s (n / 8) = libc_memcpy m d s n := by
  funext x
  have h8 : 8 * (n / 8) = n := by omega
  rw [fast_memcpy_loop_apply m d s (n / 8) (by rw [h8]; exact hdis), libc_memcpy_apply m d s n hdis,
    h8]

theorem fast_memcpy_eq (E : Env) (S : State) (dst src n : Nat)
    (hdis : ∀ i j, i < n → j < n → dst + i ≠ src + j)
    (hreal : ¬ (E.sizeof_uptr = 8 ∧ n % 8 = 0 ∧ dst % 8 = 0 ∧ src % 8 = 0) →
      S.real_memcpy = true) :
    fast_memcpy E S dst src n = some (dst, { S with mem := libc_memcpy S.mem dst src n }) := by
  unfold fast_memcpy
  by_cases h : E.sizeof_uptr = 8 ∧ n % 8 = 0 ∧ dst % 8 = 0 ∧ src % 8 = 0
  · rw [if_pos h]
    simp only [fast_memcpy_loop_eq_libc S.mem dst src n h.2.1 hdis]
  · rw [if_neg h, if_neg (by simp [hreal h])]

/-! ## The fast memory primitives -/

/-- Claim C4.  On a 64-bit target, for an 8-byte-aligned pointer and a length that is a
multiple of 8, `fast_memset` returns its first argument and leaves memory byte-identical
to the byte-wise `memset`, which stores `(unsigned char)c` in each of the `n` bytes and
nothing else, for every `c` (the genuine `memset` being bound when `c` is neither `0` nor
`-1`); and for 8-byte-aligned, non-overlapping ranges `fast_memcpy` returns its first
argument and leaves memory byte-identical to the byte-wise `memcpy`, which gives byte
`dst + i` the old value of byte `src + i` and changes nothing else. -/
theorem fast_primitives_match_libc (E : Env) (S : State) (ptr : Nat) (c : Int)
    (dst src n : Nat)
    (h64 : E.sizeof_uptr = 8) (hn : n % 8 = 0) (hptr : ptr % 8 = 0)
    (hreal : ¬ (c = 0 ∨ c = -1) → S.real_memset = true)
    (hdst : dst % 8 = 0) (hsrc : src % 8 = 0)
    (hdis : ∀ i j, i < n → j < n → dst + i ≠ src + j) :
    fast_memset E S ptr c n = some (ptr, { S with mem := libc_memset S.mem ptr c n }) ∧
    (∀ x, libc_memset S.mem ptr c n x
      = if ptr ≤ x ∧ x < ptr + n then (⟨(c % 256).toNat, by omega⟩ : Byte) else S.mem x) ∧
    fast_memcpy E S dst src n = some (dst, { S with mem := libc_memcpy S.mem dst src n }) ∧
    (∀ x, libc_memcpy S.mem dst src n x
      = if dst ≤ x ∧ x < dst + n then S.mem (src + (x - dst)) else S.mem x) := by
  refine ⟨?_, fun x => libc_memset_apply _ _ _ _ _, ?_, fun x => libc_memcpy_apply _ _ _ _ hdis x⟩
  · unfold fast_memset
    by_cases hc : c = 0 ∨ c = -1
    · rw [if_pos ⟨h64, hn, hptr, hc⟩]
      simp only [fast_memset_loop_eq_libc S.mem ptr c n hn hc]
    · rw [if_neg (fun h => hc h.2.2.2), if_neg (by simp [hreal hc])]
  · unfold fast_memcpy
    rw [if_pos ⟨h64, hn, hdst, hsrc⟩]
    simp only [fast_memcpy_loop_eq_libc S.mem dst src n hn hdis]

/-- Claim C4 at a concrete input: 16 bytes at address 8 set with `c = -1`, and 16 bytes
copied from address 32 to address 8. -/
theorem fast_primitives_match_libc_witness :
    fast_memset (demoEnv 40) (demoState (fun _ => 7) false) 8 (-1) 16
      = some (8, { demoState (fun _ => 7) false with
          mem := libc_memset (fun _ => 7) 8 (-1) 16 }) ∧
    fast_memcpy (demoEnv 40) (demoState (fun _ => 7) false) 8 32 16
      = some (8, { demoState (fun _ => 7) false with
          mem := libc_memcpy (fun _ => 7) 8 32 16 }) :=
  have h := fast_primitives_match_libc (demoEnv 40) (demoState (fun _ => 7) false) 8 (-1) 8 32 16
    rfl (by decide) (by decide) (fun h => absurd (Or.inr rfl) h) (by decide) (by decide)
    (fun i j hi hj => by omega)
  ⟨h.1, h.2.2.1⟩

/-! ## The poison propagation primitives -/

theorem unpoison_eq (E : Env) (S : State) (a n : Nat) (ha : E.MEM_TO_SHADOW a ≠ a)
    (hreal : ¬ (E.sizeof_uptr = 8 ∧ n % 8 = 0 ∧ E.MEM_TO_SHADOW a % 8 = 0) →
      S.real_memset = true) :
    __msan_unpoison E S a n
      = some { S with mem := libc_memset S.mem (E.MEM_TO_SHADOW a) 0 n } := by
  unfold __msan_unpoison IS_IN_SHADOW
  rw [if_neg (by simpa using ha),
    fast_memset_eq E S _ 0 n (fun h => hreal (fun h' => h ⟨h'.1, h'.2.1, h'.2.2, Or.inl rfl⟩))]
  rfl

theorem copy_origin_frame (E : Env) (S : State) (dst src n x : Nat)
    (hx : ¬ (E.MEM_TO_ORIGIN dst ≤ x ∧ x < E.MEM_TO_ORIGIN dst + n)) :
    (__msan_copy_origin E S dst src n).mem x = S.mem x := by
  unfold __msan_copy_origin
  split
  · rfl
  · split
    · rfl
    · exact copy_origin_loop_frame _ _ _ _ _ hx

/-- Claim C2.  For an address `a` outside the Shadow Region and any size `n` (the genuine
`memset` being bound whenever `fast_memset` has to delegate), `__msan_unpoison(a, n)`
returns, afterwards `__msan_test_shadow(a, n)` answers "none" (`-1`), every one of the `n`
shadow bytes of the range is `0`, and no byte outside those `n` shadow bytes changes. -/
theorem unpoison_then_test_shadow (E : Env) (S : State) (a n : Nat)
    (ha : E.MEM_TO_SHADOW a ≠ a)
    (hreal : ¬ (E.sizeof_uptr = 8 ∧ n % 8 = 0 ∧ E.MEM_TO_SHADOW a % 8 = 0) →
      S.real_memset = true) :
    ∃ S', __msan_unpoison E S a n = some S' ∧
      __msan_test_shadow E S' a n = -1 ∧
      (∀ i, i < n → S'.mem (E.MEM_TO_SHADOW a + i) = 0) ∧
      (∀ x, ¬ (E.MEM_TO_SHADOW a ≤ x ∧ x < E.MEM_TO_SHADOW a + n) → S'.mem x = S.mem x) := by
  have hz : ∀ i, i < n → libc_memset S.mem (E.MEM_TO_SHADOW a) 0 n (E.MEM_TO_SHADOW a + i) = 0 := by
    intro i hi
    rw [libc_memset_apply, if_pos (by omega)]
    rfl
  refine ⟨_, unpoison_eq E S a n ha hreal, ?_, hz, ?_⟩
  · unfold __msan_test_shadow
    rw [test_shadow_loop_none_iff]
    intro j hj
    simpa using hz j hj
  · intro x hx
    show libc_memset S.mem (E.MEM_TO_SHADOW a) 0 n x = S.mem x
    rw [libc_memset_apply, if_neg hx]

/-- Claim C2 at a concrete input: 5 bytes at application address 3, all shadow poisoned
beforehand; `fast_memset` delegates here. -/
theorem unpoison_then_test_shadow_witness :
    ∃ S', __msan_unpoison (demoEnv 40) (demoState (fun _ => 255) false) 3 5 = some S' ∧
      __msan_test_shadow (demoEnv 40) S' 3 5 = -1 :=
  have h := unpoison_then_test_shadow (demoEnv 40) (demoState (fun _ => 255) false) 3 5
    (by decide) (fun _ => rfl)
  ⟨h.choose, h.choose_spec.1, h.choose_spec.2.1⟩

/-- Claim C3 as stated fails: with the flag `poison_heap_with_zeroes` set, poisoning 8
bytes at application address 0 fills their shadow with zeroes, and with the flag clear,
poisoning 8 bytes at address 1000, which lies in the Shadow Region, does nothing; in both
cases `__msan_test_shadow` afterwards answers "none" (`-1`), not offset `0`. -/
theorem poison_then_test_shadow_counterexample :
    (__msan_poison (demoEnv 40) (demoState (fun _ => 0) true) 0 8).map
        (fun S' => __msan_test_shadow (demoEnv 40) S' 0 8) = some (-1) ∧
    (__msan_poison (demoEnv 40) (demoState (fun _ => 0) false) 1000 8).map
        (fun S' => __msan_test_shadow (demoEnv 40) S' 1000 8) = some (-1) := by
  constructor <;> decide

/-- Claim C3, amended.  The genuine `memset` being bound whenever `fast_memset` has to
delegate: for an address `a` inside the Shadow Region `__msan_poison(a, n)` does nothing;
for an address `a` outside it the call returns and changes no byte other than the `n`
shadow bytes of the range, and with the flag `poison_heap_with_zeroes` clear every one of
those bytes is `0xFF` afterwards, so that `__msan_test_shadow(a, n)` answers offset `0`
when `n > 0`, while with the flag set every one of them is `0` afterwards and
`__msan_test_shadow(a, n)` answers "none" (`-1`). -/
theorem poison_then_test_shadow (E : Env) (S : State) (a n : Nat)
    (hreal : ¬ (E.sizeof_uptr = 8 ∧ n % 8 = 0 ∧ E.MEM_TO_SHADOW a % 8 = 0) →
      S.real_memset = true) :
    (E.MEM_TO_SHADOW a = a → __msan_poison E S a n = some S) ∧
    (E.MEM_TO_SHADOW a ≠ a →
      ∃ S', __msan_poison E S a n = some S' ∧
        (∀ x, ¬ (E.MEM_TO_SHADOW a ≤ x ∧ x < E.MEM_TO_SHADOW a + n) → S'.mem x = S.mem x) ∧
        (S.poison_heap_with_zeroes = false →
          (∀ i, i < n → S'.mem (E.MEM_TO_SHADOW a + i) = 255) ∧
          (0 < n → __msan_test_shadow E S' a n = 0)) ∧
        (S.poison_heap_with_zeroes = true →
          (∀ i, i < n → S'.mem (E.MEM_TO_SHADOW a + i) = 0) ∧
          __msan_test_shadow E S' a n = -1)) := by
  constructor
  · intro ha
    unfold __msan_poison IS_IN_SHADOW
    rw [if_pos (by simpa using ha)]
  · intro ha
    have he : __msan_poison E S a n
        = some { S with mem := (libc_memset S.mem (E.MEM_TO_SHADOW a)
            (if S.poison_heap_with_zeroes = true then 0 else -1) n) } := by
      unfold __msan_poison IS_IN_SHADOW
      rw [if_neg (by simpa using ha), fast_memset_eq E S _ _ n
        (fun h => hreal (fun h' => h ⟨h'.1, h'.2.1, h'.2.2, by
          cases S.poison_heap_with_zeroes
          · exact Or.inr rfl
          · exact Or.inl rfl⟩))]
      rfl
    refine ⟨_, he, ?_, ?_, ?_⟩
    · intro x hx
      show libc_memset S.mem (E.MEM_TO_SHADOW a) _ n x = S.mem x
      rw [libc_memset_apply, if_neg hx]
    · intro hflag
      have hz : ∀ i, i < n → libc_memset S.mem (E.MEM_TO_SHADOW a)
          (if S.poison_heap_with_zeroes = true then 0 else -1) n (E.MEM_TO_SHADOW a + i)
            = 255 := by
        intro i hi
        rw [libc_memset_apply, if_pos (by omega), hflag]
        rfl
      refine ⟨hz, fun hn => ?_⟩
      obtain ⟨k, rfl⟩ : ∃ k, n = k + 1 := ⟨n - 1, by omega⟩
      have h0 := hz 0 hn
      simp only [Nat.add_zero] at h0
      simp only [__msan_test_shadow, test_shadow_loop, Nat.add_zero, h0]
      rw [if_pos (by decide)]
      rfl
    · intro hflag
      have hz : ∀ i, i < n → libc_memset S.mem (E.MEM_TO_SHADOW a)
          (if S.poison_heap_with_zeroes = true then 0 else -1) n (E.MEM_TO_SHADOW a + i)
            = 0 := by
        intro i hi
        rw [libc_memset_apply, if_pos (by omega), hflag]
        rfl
      refine ⟨hz, ?_⟩
      unfold __msan_test_shadow
      rw [test_shadow_loop_none_iff]
      intro j hj
      simpa using hz j hj

/-- Claim C3, amended, at concrete inputs: 5 bytes at application address 3 with the flag
clear and all shadow clear beforehand; the same with the flag set and all shadow poisoned
beforehand; and 5 bytes at address 1003, inside the Shadow Region. -/
theorem poison_then_test_shadow_witness :
    (∃ S', __msan_poison (demoEnv 40) (demoState (fun _ => 0) false) 3 5 = some S' ∧
      (∀ i, i < 5 → S'.mem ((demoEnv 40).MEM_TO_SHADOW 3 + i) = 255) ∧
      __msan_test_shadow (demoEnv 40) S' 3 5 = 0) ∧
    (∃ S', __msan_poison (demoEnv 40) (demoState (fun _ => 255) true) 3 5 = some S' ∧
      (∀ i, i < 5 → S'.mem ((demoEnv 40).MEM_TO_SHADOW 3 + i) = 0) ∧
      __msan_test_shadow (demoEnv 40) S' 3 5 = -1) ∧
    __msan_poison (demoEnv 40) (demoState (fun _ => 0) false) 1003 5
      = some (demoState (fun _ => 0) false) :=
  have h1 := (poison_then_test_shadow (demoEnv 40) (demoState (fun _ => 0) false) 3 5
    (fun _ => rfl)).2 (by decide)
  have h2 := (poison_then_test_shadow (demoEnv 40) (demoState (fun _ => 255) true) 3 5
    (fun _ => rfl)).2 (by decide)
  have h3 := (poison_then_test_shadow (demoEnv 40) (demoState (fun _ => 0) false) 1003 5
    (fun _ => rfl)).1 (by decide)
  ⟨⟨h1.choose, h1.choose_spec.1, (h1.choose_spec.2.2.1 rfl).1,
      (h1.choose_spec.2.2.1 rfl).2 (by decide)⟩,
    ⟨h2.choose, h2.choose_spec.1, (h2.choose_spec.2.2.2 rfl).1,
      (h2.choose_spec.2.2.2 rfl).2⟩, h3⟩

/-- Claim C1.  Let the application ranges `[dst, dst+n)` and `[src, src+n)` not overlap,
let neither `dst` nor `src` lie in the Shadow Region, let `MEM_TO_SHADOW` be
offset-preserving and injective on the two ranges, and let the origin storage of
`[dst, dst+n)` be apart from its shadow storage (the genuine `memcpy` being bound
whenever `fast_memcpy` has to delegate).  Then `__msan_copy_poison(dst, src, n)` returns,
and afterwards the shadow byte of `dst + i` equals the shadow byte that `src + i` had
before the call, for every `i < n`, on the word-copy path and on the delegating path
alike. -/
theorem copy_poison_roundtrip (E : Env) (S : State) (dst src n : Nat)
    (hdst : E.MEM_TO_SHADOW dst ≠ dst) (hsrc : E.MEM_TO_SHADOW src ≠ src)
    (hoffd : ∀ i, i < n → E.MEM_TO_SHADOW (dst + i) = E.MEM_TO_SHADOW dst + i)
    (hoffs : ∀ i, i < n → E.MEM_TO_SHADOW (src + i) = E.MEM_TO_SHADOW src + i)
    (hinj : ∀ i j, i < n → j < n →
      E.MEM_TO_SHADOW (dst + i) = E.MEM_TO_SHADOW (src + j) → dst + i = src + j)
    (hdis : ∀ i j, i < n → j < n → dst + i ≠ src + j)
    (horig : ∀ i j, i < n → j < n → E.MEM_TO_ORIGIN dst + i ≠ E.MEM_TO_SHADOW dst + j)
    (hreal : ¬ (E.sizeof_uptr = 8 ∧ n % 8 = 0 ∧ E.MEM_TO_SHADOW dst % 8 = 0 ∧
      E.MEM_TO_SHADOW src % 8 = 0) → S.real_memcpy = true) :
    ∃ S', __msan_copy_poison E S dst src n = some S' ∧
      ∀ i, i < n → S'.mem (E.MEM_TO_SHADOW (dst + i)) = S.mem (E.MEM_TO_SHADOW (src + i)) := by
  have hsd : ∀ i j, i < n → j < n → E.MEM_TO_SHADOW dst + i ≠ E.MEM_TO_SHADOW src + j := by
    intro i j hi hj h
    rw [← hoffd i hi, ← hoffs j hj] at h
    exact hdis i j hi hj (hinj i j hi hj h)
  have he : __msan_copy_poison E S dst src n
      = some (__msan_copy_origin E
          { S with mem := libc_memcpy S.mem (E.MEM_TO_SHADOW dst) (E.MEM_TO_SHADOW src) n }
          dst src n) := by
    unfold __msan_copy_poison IS_IN_SHADOW
    rw [if_neg (by simpa using hdst), if_neg (by simpa using hsrc),
      fast_memcpy_eq E S _ _ n hsd hreal]
  refine ⟨_, he, ?_⟩
  intro i hi
  rw [hoffd i hi, hoffs i hi, copy_origin_frame]
  · show libc_memcpy S.mem (E.MEM_TO_SHADOW dst) (E.MEM_TO_SHADOW src) n
      (E.MEM_TO_SHADOW dst + i) = _
    rw [libc_memcpy_apply _ _ _ _ hsd, if_pos (by omega)]
    congr 2
    omega
  · intro hx
    exact horig (E.MEM_TO_SHADOW dst + i - E.MEM_TO_ORIGIN dst) i (by omega) hi (by omega)

/-- Claim C1 at a concrete input: 5 bytes copied from application address 40 to
application address 3, with origin tracking on. -/
theorem copy_poison_roundtrip_witness :
    ∃ S', __msan_copy_poison (demoEnv 40) (demoState (fun a => Fin.ofNat a) false) 3 40 5 = some S' ∧
      ∀ i, i < 5 → S'.mem ((demoEnv 40).MEM_TO_SHADOW (3 + i))
        = (demoState (fun a => Fin.ofNat a) false).mem ((demoEnv 40).MEM_TO_SHADOW (40 + i)) :=
  copy_poison_roundtrip (demoEnv 40) (demoState (fun a => Fin.ofNat a) false) 3 40 5
    (by decide) (by decide)
    (fun i hi => by simp only [demoEnv]; rw [if_pos (by omega), if_pos (by omega)]; omega)
    (fun i hi => by simp only [demoEnv]; rw [if_pos (by omega), if_pos (by omega)]; omega)
    (fun i j hi hj => by
      simp only [demoEnv]; rw [if_pos (by omega), if_pos (by omega)]; omega)
    (fun i j hi hj => by omega)
    (fun i j hi hj => by simp only [demoEnv]; omega)
    (fun _ => rfl)

/-! ## Interceptors that unpoison or validate -/

theorem unpoison_after_real (E : Env) (S1 : State) (ptr : Nat) (res : Int)
    (hptr : E.MEM_TO_SHADOW ptr ≠ ptr) (hreal : S1.real_memset = true) :
    ∃ S2, (if res > 0 then (__msan_unpoison E S1 ptr res.toNat).map (fun S2 => (res, S2))
        else some (res, S1)) = some (res, S2) ∧
      (0 < res →
        (∀ i, i < res.toNat → S2.mem (E.MEM_TO_SHADOW ptr + i) = 0) ∧
        (∀ x, ¬ (E.MEM_TO_SHADOW ptr ≤ x ∧ x < E.MEM_TO_SHADOW ptr + res.toNat) →
          S2.mem x = S1.mem x)) ∧
      (res ≤ 0 → S2 = S1) := by
  by_cases h : res > 0
  · refine ⟨{ S1 with mem := libc_memset S1.mem (E.MEM_TO_SHADOW ptr) 0 res.toNat }, ?_,
      fun _ => ⟨?_, ?_⟩, fun h' => absurd h (by omega)⟩
    · rw [if_pos h, unpoison_eq E S1 ptr res.toNat hptr (fun _ => hreal)]
      rfl
    · intro i hi
      show libc_memset S1.mem (E.MEM_TO_SHADOW ptr) 0 res.toNat (E.MEM_TO_SHADOW ptr + i) = 0
      rw [libc_memset_apply, if_pos (by omega)]
      rfl
    · intro x hx
      show libc_memset S1.mem (E.MEM_TO_SHADOW ptr) 0 res.toNat x = S1.mem x
      rw [libc_memset_apply, if_neg hx]
  · exact ⟨S1, by rw [if_neg h], fun h' => absurd h' h, fun _ => rfl⟩

/-- Claim C5.  Let `ENSURE_MSAN_INITED` pass and leave state `S0`, let `ptr` lie outside
the Shadow Region, and let the genuine `memset` be bound in the state `S1` in which the
genuine `read` (or `pread`) returns `res`.  Then the interceptor returns `res` unchanged;
if `res > 0` the shadow bytes of `ptr[0..res)` are `0` afterwards and every other byte of
memory, in particular the shadow of every offset from `res` on, is as the genuine call
left it; if `res ≤ 0` the state is exactly as the genuine call left it. -/
theorem read_pread_unpoison_bytes_read (E : Env) (S S0 : State) (fd : Int)
    (ptr count offset : Nat)
    (hens : ENSURE_MSAN_INITED E S = some S0)
    (hptr : E.MEM_TO_SHADOW ptr ≠ ptr)
    (hr : (E.real_read S0 fd ptr count).2.real_memset = true)
    (hp : (E.real_pread S0 fd ptr count offset).2.real_memset = true) :
    (∃ S2, read E S fd ptr count = some ((E.real_read S0 fd ptr count).1, S2) ∧
      (0 < (E.real_read S0 fd ptr count).1 →
        (∀ i, i < (E.real_read S0 fd ptr count).1.toNat →
          S2.mem (E.MEM_TO_SHADOW ptr + i) = 0) ∧
        (∀ x, ¬ (E.MEM_TO_SHADOW ptr ≤ x ∧
            x < E.MEM_TO_SHADOW ptr + (E.real_read S0 fd ptr count).1.toNat) →
          S2.mem x = (E.real_read S0 fd ptr count).2.mem x)) ∧
      ((E.real_read S0 fd ptr count).1 ≤ 0 → S2 = (E.real_read S0 fd ptr count).2)) ∧
    (∃ S2, pread E S fd ptr count offset
        = some ((E.real_pread S0 fd ptr count offset).1, S2) ∧
      (0 < (E.real_pread S0 fd ptr count offset).1 →
        (∀ i, i < (E.real_pread S0 fd ptr count offset).1.toNat →
          S2.mem (E.MEM_TO_SHADOW ptr + i) = 0) ∧
        (∀ x, ¬ (E.MEM_TO_SHADOW ptr ≤ x ∧
            x < E.MEM_TO_SHADOW ptr + (E.real_pread S0 fd ptr count offset).1.toNat) →
          S2.mem x = (E.real_pread S0 fd ptr count offset).2.mem x)) ∧
      ((E.real_pread S0 fd ptr count offset).1 ≤ 0 →
        S2 = (E.real_pread S0 fd ptr count offset).2)) := by
  constructor
  · obtain ⟨S2, he, h1, h2⟩ := unpoison_after_real E (E.real_read S0 fd ptr count).2 ptr
      (E.real_read S0 fd ptr count).1 hptr hr
    refine ⟨S2, ?_, h1, h2⟩
    unfold read
    rw [hens]
    exact he
  · obtain ⟨S2, he, h1, h2⟩ := unpoison_after_real E (E.real_pread S0 fd ptr count offset).2
      ptr (E.real_pread S0 fd ptr count offset).1 hptr hp
    refine ⟨S2, ?_, h1, h2⟩
    unfold pread
    rw [hens]
    exact he

/-- Claim C5 at a concrete input: `read(fd, buf, 100)` returning 40 on a buffer at
application address 0. -/
theorem read_pread_unpoison_bytes_read_witness :
    ∃ S2, read (demoEnv 40) (demoState (fun _ => 255) false) 3 0 100
        = some (40, S2) ∧
      (∀ i, i < 40 → S2.mem (1000 + i) = 0) ∧
      (∀ x, ¬ (1000 ≤ x ∧ x < 1000 + 40) → S2.mem x = 255) :=
  have h := (read_pread_unpoison_bytes_read (demoEnv 40) (demoState (fun _ => 255) false)
    (demoState (fun _ => 255) false) 3 0 100 0 rfl (by decide) rfl rfl).1
  ⟨h.choose, h.choose_spec.1, (h.choose_spec.2.1 (by decide)).1,
    (h.choose_spec.2.1 (by decide)).2⟩

theorem libc_strnlen_le (m : Mem) (s n : Nat) : libc_strnlen m s n ≤ n := by
  induction n generalizing s with
  | zero => exact Nat.le_refl 0
  | succ k ih =>
    simp only [libc_strnlen]
    split
    · omega
    · have := ih (s + 1); omega

theorem libc_strnlen_nonzero (m : Mem) (s n i : Nat) (hi : i < libc_strnlen m s n) :
    m (s + i) ≠ 0 := by
  induction n generalizing s i with
  | zero => exact absurd hi (by simp [libc_strnlen])
  | succ k ih =>
    simp only [libc_strnlen] at hi
    split at hi
    · omega
    · next h0 =>
      cases i with
      | zero => simpa using h0
      | succ i =>
        have := ih (s + 1) i (by omega)
        rwa [show s + (i + 1) = s + 1 + i by omega]

theorem libc_strnlen_terminator (m : Mem) (s n : Nat) (h : libc_strnlen m s n < n) :
    m (s + libc_strnlen m s n) = 0 := by
  induction n generalizing s with
  | zero => omega
  | succ k ih =>
    simp only [libc_strnlen] at h ⊢
    split
    · next h0 => simpa using h0
    · next h0 =>
      rw [if_neg h0] at h
      have := ih (s + 1) (by omega)
      rwa [show s + (libc_strnlen m (s + 1) k + 1) = s + 1 + libc_strnlen m (s + 1) k by omega]

theorem libc_strnlen_eq_iff (m : Mem) (s n : Nat) :
    libc_strnlen m s n = n ↔ ¬ ∃ i, i < n ∧ m (s + i) = 0 := by
  constructor
  · rintro h ⟨i, hi, h0⟩
    exact libc_strnlen_nonzero m s n i (by omega) h0
  · intro h
    by_contra hne
    have hlt : libc_strnlen m s n < n := by
      have := libc_strnlen_le m s n
      omega
    exact h ⟨_, hlt, libc_strnlen_terminator m s n hlt⟩

theorem CHECK_UNPOISONED_mem (E : Env) (S : State) (x k : Nat) :
    (CHECK_UNPOISONED E S x k).mem = S.mem := by
  unfold CHECK_UNPOISONED
  simp only
  split <;> rfl

theorem CHECK_UNPOISONED_reports (E : Env) (S : State) (x k : Nat) :
    (CHECK_UNPOISONED E S x k).reports = (if __msan_test_shadow E S x k = -1 then S.reports
      else S.reports ++ [__msan_test_shadow E S x k]) := by
  unfold CHECK_UNPOISONED
  simp only
  by_cases h : __msan_test_shadow E S x k = -1
  · rw [if_pos h, h, if_neg (by decide)]
  · have h' : __msan_test_shadow E S x k ≥ 0 := (test_shadow_loop_nonneg_iff _ _ _ _).2 h
    rw [if_neg h, if_pos h']

/-- Claim C9.  Let `ENSURE_MSAN_INITED` pass and leave state `S0`.  The `strnlen`
interceptor returns the genuine result `res`: at most `n`, no NUL before offset `res`, a
NUL at offset `res` when `res < n`.  It validates a prefix of `scan` bytes, where `scan`
is `res + 1` when a NUL lies within the first `n` bytes and `n` when none does.  It leaves
all of memory unchanged, raises exactly one report when `__msan_test_shadow` over the
prefix is not "none" and no report otherwise, "none" meaning that all `scan` shadow bytes
are `0`, and the answer of `__msan_test_shadow` depends on no byte outside the `scan`
shadow bytes of the prefix. -/
theorem strnlen_validates_scanned (E : Env) (S S0 : State) (s n : Nat)
    (hens : ENSURE_MSAN_INITED E S = some S0) :
    ∃ scan S', strnlen E S s n = some (libc_strnlen S0.mem s n, S') ∧
      libc_strnlen S0.mem s n ≤ n ∧
      (∀ i, i < libc_strnlen S0.mem s n → S0.mem (s + i) ≠ 0) ∧
      (libc_strnlen S0.mem s n < n → S0.mem (s + libc_strnlen S0.mem s n) = 0) ∧
      ((∃ i, i < n ∧ S0.mem (s + i) = 0) → scan = libc_strnlen S0.mem s n + 1) ∧
      ((¬ ∃ i, i < n ∧ S0.mem (s + i) = 0) → scan = n) ∧
      S'.mem = S0.mem ∧
      S'.reports = (if __msan_test_shadow E S0 s scan = -1 then S0.reports
        else S0.reports ++ [__msan_test_shadow E S0 s scan]) ∧
      (__msan_test_shadow E S0 s scan = -1 ↔
        ∀ j, j < scan → S0.mem (E.MEM_TO_SHADOW s + j) = 0) ∧
      (∀ T : State, (∀ j, j < scan → T.mem (E.MEM_TO_SHADOW s + j)
          = S0.mem (E.MEM_TO_SHADOW s + j)) →
        __msan_test_shadow E T s scan = __msan_test_shadow E S0 s scan) := by
  refine ⟨if libc_strnlen S0.mem s n = n then libc_strnlen S0.mem s n
      else libc_strnlen S0.mem s n + 1,
    CHECK_UNPOISONED E S0 s (if libc_strnlen S0.mem s n = n then libc_strnlen S0.mem s n
      else libc_strnlen S0.mem s n + 1), ?_, libc_strnlen_le _ _ _,
    fun i hi => libc_strnlen_nonzero _ _ _ i hi, libc_strnlen_terminator _ _ _, ?_, ?_, ?_, ?_,
    ?_, ?_⟩
  · unfold strnlen
    rw [hens]
  · intro h
    rw [if_neg (fun he => (libc_strnlen_eq_iff _ _ _).1 he h)]
  · intro h
    rw [if_pos ((libc_strnlen_eq_iff _ _ _).2 h)]
    exact (libc_strnlen_eq_iff _ _ _).2 h
  · exact CHECK_UNPOISONED_mem _ _ _ _
  · exact CHECK_UNPOISONED_reports _ _ _ _
  · unfold __msan_test_shadow
    rw [test_shadow_loop_none_iff]
    simp only [Nat.zero_add]
  · intro T hT
    unfold __msan_test_shadow
    exact test_shadow_loop_congr _ _ _ _ _ (fun j hj => by simpa using hT j hj)

/-- Claim C9 at a concrete input: `strnlen("a", 8)` on the string at address 100. -/
theorem strnlen_validates_scanned_witness :
    ∃ scan S', strnlen (demoEnv 0) (demoState demoStrings false) 100 8
        = some (libc_strnlen demoStrings 100 8, S') ∧
      ((∃ i, i < 8 ∧ demoStrings (100 + i) = 0) → scan = libc_strnlen demoStrings 100 8 + 1) ∧
      S'.mem = demoStrings :=
  have h := strnlen_validates_scanned (demoEnv 0) (demoState demoStrings false)
    (demoState demoStrings false) 100 8 rfl
  ⟨h.choose, h.choose_spec.choose, h.choose_spec.choose_spec.1,
    h.choose_spec.choose_spec.2.2.2.2.1, h.choose_spec.choose_spec.2.2.2.2.2.2.1⟩

/-! ## Interceptors whose shadow update departs from the genuine call -/

theorem strncat_copy_size_eq_iff (m : Mem) (src n : Nat) :
    strncat_copy_size m src n = min (libc_strlen m src) n + 1 ↔
      libc_strlen m src < n ∨ libc_strlen m src = n + 1 := by
  unfold strncat_copy_size
  simp only
  split <;> omega

/-- Claim C6 at the failing input `strncat(dest = "a", src = "bcd", n = 1)`.  The genuine
`strncat` writes 2 bytes at `dest + 1` (one character and the terminator) and leaves byte
103 alone, but the interceptor copies poison over 3 bytes, which is more than
`min(strlen(src), n) + 1 = n + 1 = 2`: the shadow byte of address 103 goes from `0` to
`0xFF`.  With `n = 3` the length is 3, one less than the 4 bytes that `strncat` writes. -/
theorem strncat_copy_size_departs :
    libc_strlen demoStrings 100 = 1 ∧ libc_strlen demoStrings 200 = 3 ∧
    strncat_copy_size demoStrings 200 1 = 3 ∧
    min (libc_strlen demoStrings 200) 1 + 1 = 2 ∧
    (libc_strncat demoStrings 100 200 1).2 103 = demoStrings 103 ∧
    demoStrings 1103 = 0 ∧
    (strncat (demoEnv 0) (demoState demoStrings false) 100 200 1).map
        (fun r => (r.1, r.2.mem 1103)) = some (100, 255) ∧
    strncat_copy_size demoStrings 200 3 = 3 ∧
    min (libc_strlen demoStrings 200) 3 + 1 = 4 := by
  decide

theorem vsnprintf_eq (E : Env) (S : State) (str size format ap : Nat)
    (hdyn : E.msan_has_dynamic_component (E.real_vsnprintf S str size format ap).2 = false)
    (hstr : E.MEM_TO_SHADOW str ≠ str)
    (hreal : (E.real_vsnprintf S str size format ap).2.real_memset = true) :
    vsnprintf E S str size format ap
      = some ((E.real_vsnprintf S str size format ap).1,
          { (E.real_vsnprintf S str size format ap).2 with
            mem := libc_memset (E.real_vsnprintf S str size format ap).2.mem
              (E.MEM_TO_SHADOW str) 0
              (((E.real_vsnprintf S str size format ap).1 + 1) % 2 ^ 64).toNat }) := by
  unfold vsnprintf
  simp only
  rw [if_pos hdyn, unpoison_eq E _ str _ hstr (fun _ => hreal)]
  rfl

/-- Claim C7 at the failing input `vsnprintf(str, 4, ...)` with the genuine call
returning 10 (output truncated to 4 bytes): the interceptor clears the shadow of 11
bytes, so the shadow bytes at offsets 4 to 10, all at or beyond `size`, go from `0xFF` to
`0`; offset 11 keeps `0xFF`. -/
theorem vsnprintf_unpoisons_beyond_size :
    (demoState (fun _ => 255) false).mem 1004 = 255 ∧
    (vsnprintf (demoEnv 10) (demoState (fun _ => 255) false) 0 4 0 0).map
        (fun r => (r.1, r.2.mem 1003, r.2.mem 1004, r.2.mem 1010, r.2.mem 1011))
      = some (10, 0, 0, 0, 255) := by
  decide

theorem and_pred_eq_zero_iff (a : Nat) : a &&& (a - 1) = 0 ↔ a = 0 ∨ ∃ k, a = 2 ^ k := by
  induction a using Nat.strong_induction_on with
  | _ a ih =>
    have hz : ∀ x : Nat, x = 0 ↔ x / 2 = 0 ∧ ¬ (x % 2 = 1) := fun x => by omega
    rw [hz (a &&& (a - 1)), Nat.and_div_two, Nat.and_mod_two_eq_one]
    rcases Nat.eq_zero_or_pos a with h0 | hpos
    · subst h0; simp
    rcases Nat.mod_two_eq_zero_or_one a with he | ho
    · have h1 : (a - 1) / 2 = a / 2 - 1 := by omega
      have hlt : a / 2 < a := by omega
      rw [h1, ih (a / 2) hlt]
      constructor
      · rintro ⟨h | ⟨k, hk⟩, _⟩
        · omega
        · exact Or.inr ⟨k + 1, by rw [pow_succ]; omega⟩
      · rintro (h | ⟨k, hk⟩)
        · omega
        · refine ⟨Or.inr ?_, by omega⟩
          cases k with
          | zero => simp at hk; omega
          | succ k => exact ⟨k, by rw [pow_succ] at hk; omega⟩
    · have h1 : (a - 1) / 2 = a / 2 := by omega
      rw [h1, Nat.and_self]
      constructor
      · rintro ⟨h, _⟩
        exact Or.inr ⟨0, by simp; omega⟩
      · rintro (h | ⟨k, hk⟩)
        · omega
        · cases k with
          | zero => simp at hk; subst hk; simp
          | succ k => rw [pow_succ] at hk; omega

theorem posix_memalign_returns_iff (E : Env) (S : State) (memptr alignment size : Nat)
    (ha : alignment < 2 ^ 64) :
    (∃ r, posix_memalign E S memptr alignment size = some r) ↔
      (alignment = 0 ∨ ∃ k, alignment = 2 ^ k) ∧ memptr ≠ 0 := by
  have hsub : alignment &&& ((alignment + 2 ^ 64 - 1) % 2 ^ 64) = alignment &&& (alignment - 1) := by
    rcases Nat.eq_zero_or_pos alignment with h0 | hpos
    · rw [h0, Nat.zero_and, Nat.zero_and]
    · have hm : (alignment + 2 ^ 64 - 1) % 2 ^ 64 = alignment - 1 := by omega
      rw [hm]
  unfold posix_memalign
  simp only [hsub]
  by_cases hc : alignment &&& (alignment - 1) = 0
  · rw [if_neg (by simpa using hc)]
    by_cases hm : memptr = 0
    · rw [if_pos hm]
      simp [hm]
    · rw [if_neg hm]
      exact ⟨fun _ => ⟨(and_pred_eq_zero_iff _).1 hc, hm⟩, fun _ => ⟨_, rfl⟩⟩
  · rw [if_pos hc]
    exact ⟨fun ⟨r, hr⟩ => (by cases hr), fun h => absurd ((and_pred_eq_zero_iff _).2 h.1) hc⟩

/-- Claim C8 at the failing input `posix_memalign(memptr, 0, 32)`: alignment `0` is not a
power of two, yet no check fails; the allocator is called with alignment `0`, its result
(here `512 + 0`) is stored at `*memptr` and the interceptor returns `0`. -/
theorem posix_memalign_accepts_zero :
    (¬ ∃ k, (0 : Nat) = 2 ^ k) ∧
    (posix_memalign (demoEnv 0) (demoState (fun _ => 0) false) 16 0 32).map
        (fun r => (r.1, load_word r.2.mem 16)) = some (0, 512) := by
  refine ⟨?_, by decide⟩
  rintro ⟨k, hk⟩
  exact absurd hk.symm (by positivity)

theorem calloc_bootstrap_invariant (E : Env) (S S' : State) (nmemb size p : Nat)
    (hw : E.kWordSize = 8) (hu : E.sizeof_uptr = 8) (hinit : S.msan_inited = false)
    (hS : S.allocated < 1024)
    (h : calloc E S nmemb size = some (p, S')) :
    S.allocated ≤ S'.allocated ∧ S'.allocated < 1024 ∧
    p = E.calloc_memory_for_dlsym + 8 * S.allocated ∧
    p + 8 * (S'.allocated - S.allocated) ≤ E.calloc_memory_for_dlsym + 8 * 1024 ∧
    (nmemb * size + 7 < 2 ^ 64 → nmemb * size ≤ 8 * (S'.allocated - S.allocated)) := by
  unfold calloc at h
  simp only [hinit, hw, hu, if_true] at h
  split at h
  · next hlt =>
    simp only [Option.some.injEq, Prod.mk.injEq] at h
    obtain ⟨hp, hS'⟩ := h
    subst hS'
    subst hp
    simp only
    have hdiv : ((nmemb * size) % 2 ^ 64 + 8 - 1) % 2 ^ 64 / 8 < 2 ^ 61 := by omega
    have hmod : (S.allocated + ((nmemb * size) % 2 ^ 64 + 8 - 1) % 2 ^ 64 / 8) % 2 ^ 64
        = S.allocated + ((nmemb * size) % 2 ^ 64 + 8 - 1) % 2 ^ 64 / 8 := by omega
    rw [hmod] at hlt ⊢
    refine ⟨by omega, hlt, trivial, by omega, ?_⟩
    intro hsz
    omega
  · cases h

/-- Claim C10 at the failing input: the bootstrap call `calloc(2^64 - 1, 1)` with nothing
consumed returns the pool start and leaves the offset at `0`, a region of 0 words for a
request of `2^64 - 1` bytes; and `calloc(2^61 + 1, 8)` with 5 words consumed returns
word 5 and advances the offset to 6, a region of one word for a request of `2^64 + 8`
bytes.  Neither call aborts. -/
theorem calloc_bootstrap_size_wraps :
    (calloc (demoEnv 0) (bootState 0) (2 ^ 64 - 1) 1).map
        (fun r => (r.1, r.2.allocated)) = some (4096, 0) ∧
    (calloc (demoEnv 0) (bootState 5) (2 ^ 61 + 1) 8).map
        (fun r => (r.1, r.2.allocated)) = some (4096 + 8 * 5, 6) := by
  decide

end Msan
